import Mathlib

/-!
Verification of the Trade Reliability & Calibration Analytics Engine of the
Kalshi weather-arbitrage dashboard.

The analytics engine itself (Django backend views) is not present in the
available sources; only its API documentation, its test documentation, and
its frontend callers are.  Engine-level definitions below are therefore
modelled from the specification, as their doc comments state.  Frontend
computations (ReliabilityPanel, CityPerformance, CostPanel) are embedded
from the TypeScript source directly.

Numbers are embedded as rationals (JS numbers / Python floats carrying
exact cent and probability values in the specified computations).
-/

namespace KalshiAnalytics

/-- Modelled from the spec: `SettlementRecord` (§3 DATA MODEL) — one closed
trade outcome, as supplied by the settlement log.  The backend engine that
consumes it is absent from the sources. -/
structure SettlementRecord where
  timestamp : ℤ
  city : String
  side : String
  count : ℕ
  price_cents : ℤ
  cost_cents : ℤ
  pnl_cents : ℤ
  won : Bool
  predicted_edge_cents : ℚ
  confidence : ℚ
  actual_temp : Option ℚ
  forecast : Option ℚ
  provider_count : ℤ
  noaa_stale : Bool
  individual_forecasts : List (String × ℚ)
  deriving DecidableEq, Repr

/-- Modelled from the spec: the engine's uniform ratio convention (§7): a
ratio with zero denominator is reported as `null` (None), never raised as an
error. -/
def ratioOrNull (num den : ℚ) : Option ℚ :=
  if den = 0 then none else some (num / den)

/-- Modelled from the spec: `BucketStats` (§3) — `{trades, wins, losses,
win_rate}` derived from a group of records. -/
structure BucketStats where
  trades : ℕ
  wins : ℕ
  losses : ℕ
  win_rate : Option ℚ
  deriving DecidableEq, Repr

/-- Modelled from the spec: compute `BucketStats` over a group of records.
Win/loss counting uses the `won` boolean exclusively (§4.3). -/
def statsOf (recs : List SettlementRecord) : BucketStats :=
  { trades := recs.length
    wins := (recs.filter (fun r => r.won)).length
    losses := (recs.filter (fun r => !r.won)).length
    win_rate := ratioOrNull ((recs.filter (fun r => r.won)).length * 100) recs.length }

/-- Modelled from the spec: `min_trades` suppression (§3 Invariant) — a
group with `trades < min_trades` is dropped from the detail output. -/
def suppress {β : Type} (tr : β → ℕ) (minTrades : ℕ) (l : List β) : List β :=
  l.filter (fun g => decide (minTrades ≤ tr g))

/-- Modelled from the spec: generic grouping (§4.3), before suppression —
group records by a (possibly partial) key, compute `BucketStats` per group,
keep only groups occurring in the data.  Records whose key is `none` (value
below the lowest configured bucket bound) are dropped from bucketed views
(§4.2). -/
def groupsBase {K : Type} [DecidableEq K] (key : SettlementRecord → Option K)
    (recs : List SettlementRecord) : List (K × BucketStats) :=
  (recs.filterMap key).dedup.map
    (fun k => (k, statsOf (recs.filter (fun r => decide (key r = some k)))))

/-- Modelled from the spec: generic grouped detail (§4.3) — the grouping of
`groupsBase` with groups below `min_trades` suppressed. -/
def groupsBy {K : Type} [DecidableEq K] (key : SettlementRecord → Option K)
    (recs : List SettlementRecord) (minTrades : ℕ) : List (K × BucketStats) :=
  suppress (fun g => g.2.trades) minTrades (groupsBase key recs)

end KalshiAnalytics

namespace KalshiAnalytics

/-- Modelled from the spec: named-range bucket list for edge brackets
(§4.2): `10-15`, `15-25`, `25-40`, `40-100`, the last unbounded above. -/
def edgeRanges : List (String × ℚ × Option ℚ) :=
  [("10-15", 10, some 15), ("15-25", 15, some 25),
   ("25-40", 25, some 40), ("40-100", 40, none)]

/-- Modelled from the spec: named-range bucket list for confidence brackets
(§4.2): `0.6-0.7` … `0.9-1.0`, the last inclusive above. -/
def confidenceRanges : List (String × ℚ × Option ℚ) :=
  [("0.6-0.7", 6/10, some (7/10)), ("0.7-0.8", 7/10, some (8/10)),
   ("0.8-0.9", 8/10, some (9/10)), ("0.9-1.0", 9/10, none)]

/-- Modelled from the spec: a value falls into the first named range where
`lower <= v < upper` (§4.2); a `none` upper bound is unbounded above. -/
def findRange (ranges : List (String × ℚ × Option ℚ)) (v : ℚ) : Option String :=
  (ranges.find? (fun rg =>
    decide (rg.2.1 ≤ v) &&
      match rg.2.2 with
      | some hi => decide (v < hi)
      | none => true)).map (fun rg => rg.1)

/-- Modelled from the spec: fixed-width numeric bucketing (§4.2) — value `v`
maps to the bucket with lower bound `floor(v / bucket_size) * bucket_size`. -/
def fixedBucketLower (bucketSize v : ℚ) : ℚ :=
  ⌊v / bucketSize⌋ * bucketSize

/-- Modelled from the spec: label of the integer-cent fixed-width edge
bucket containing `v`, formatted `"{lower}-{upper}"` (§4.2). -/
def edgeFixedLabel (bucketSize : ℤ) (v : ℚ) : String :=
  toString (⌊v / (bucketSize : ℚ)⌋ * bucketSize) ++ "-" ++
    toString (⌊v / (bucketSize : ℚ)⌋ * bucketSize + bucketSize)

end KalshiAnalytics

namespace KalshiAnalytics

/-- Modelled from the spec: reliability by-city grouping (§4.3) — the
categorical city value is the group key. -/
def byCity (recs : List SettlementRecord) (minTrades : ℕ) : List (String × BucketStats) :=
  groupsBy (fun r => some r.city) recs minTrades

/-- Modelled from the spec: reliability by-side grouping (§4.3). -/
def bySide (recs : List SettlementRecord) (minTrades : ℕ) : List (String × BucketStats) :=
  groupsBy (fun r => some r.side) recs minTrades

/-- Modelled from the spec: reliability by-confidence grouping (§4.3) — the
named-range bucket on `confidence` is the group key. -/
def byConfidence (recs : List SettlementRecord) (minTrades : ℕ) :
    List (String × BucketStats) :=
  groupsBy (fun r => findRange confidenceRanges r.confidence) recs minTrades

/-- Modelled from the spec: reliability by-edge grouping (§4.3) — the
named-range bucket on `predicted_edge_cents` is the group key. -/
def byEdge (recs : List SettlementRecord) (minTrades : ℕ) : List (String × BucketStats) :=
  groupsBy (fun r => findRange edgeRanges r.predicted_edge_cents) recs minTrades

/-- Modelled from the spec: provider accuracy grouping (§4.7) — group by
each key present in `individual_forecasts`; a provider's win is attributed
whenever the parent trade won. -/
def providersAccuracy (recs : List SettlementRecord) (minTrades : ℕ) :
    List (String × BucketStats) :=
  suppress (fun g => g.2.trades) minTrades
    (((recs.map (fun r => r.individual_forecasts.map Prod.fst)).flatten).dedup.map
      (fun p => (p, statsOf (recs.filter (fun r =>
        r.individual_forecasts.any (fun q => q.1 == p))))))

/-- Modelled from the spec: per-bucket ROI entry of the cost analytics
(§4.5): `roi`, `avg_pnl`, `count`. -/
structure EdgeBucketRoi where
  roi : Option ℚ
  avg_pnl : Option ℚ
  count : ℕ
  deriving DecidableEq, Repr

/-- Modelled from the spec: `by-edge-bucket` ROI (§4.5) — group by the
named-range edge bucket, per-bucket `roi` and mean pnl, suppressing buckets
with `count < min_trades`. -/
def costByEdgeBucket (recs : List SettlementRecord) (minTrades : ℕ) :
    List (String × EdgeBucketRoi) :=
  suppress (fun g => g.2.count) minTrades
    (((recs.filterMap (fun r => findRange edgeRanges r.predicted_edge_cents)).dedup).map
      (fun k =>
        let grp := recs.filter (fun r =>
          decide (findRange edgeRanges r.predicted_edge_cents = some k))
        (k, { roi := ratioOrNull ((grp.map (fun r => r.pnl_cents)).sum * 100)
                       ((grp.map (fun r => r.cost_cents)).sum : ℤ)
              avg_pnl := ratioOrNull ((grp.map (fun r => r.pnl_cents)).sum : ℤ) grp.length
              count := grp.length })))

/-- Modelled from the spec: cost/ROI summary result shape (§4.5). -/
structure CostSummary where
  avg_cost_cents : Option ℚ
  avg_profit_cents : Option ℚ
  total_cost_cents : ℤ
  total_profit_cents : ℤ
  roi : Option ℚ
  break_even_win_rate : Option ℚ
  actual_win_rate : Option ℚ
  deriving DecidableEq, Repr

/-- Modelled from the spec: cost/ROI analyzer (§4.5) over the whole filtered
set.  `min_trades` only gates whether break-even figures are reported for
the slice as a whole; totals are never suppressed. -/
def costSummary (recs : List SettlementRecord) (minTrades : ℕ) : CostSummary :=
  let wins := recs.filter (fun r => r.won)
  let losses := recs.filter (fun r => !r.won)
  let avgWinPayoff := ratioOrNull ((wins.map (fun r => r.pnl_cents)).sum : ℤ) wins.length
  let avgLossPayoff :=
    ratioOrNull ((losses.map (fun r => |r.pnl_cents|)).sum : ℤ) losses.length
  { avg_cost_cents := ratioOrNull ((recs.map (fun r => r.cost_cents)).sum : ℤ) recs.length
    avg_profit_cents := ratioOrNull ((recs.map (fun r => r.pnl_cents)).sum : ℤ) recs.length
    total_cost_cents := (recs.map (fun r => r.cost_cents)).sum
    total_profit_cents := (recs.map (fun r => r.pnl_cents)).sum
    roi := ratioOrNull ((recs.map (fun r => r.pnl_cents)).sum * 100)
             ((recs.map (fun r => r.cost_cents)).sum : ℤ)
    break_even_win_rate :=
      if recs.length < minTrades then none else
        match avgWinPayoff, avgLossPayoff with
        | some w, some l => (ratioOrNull (l * 100) (w + l))
        | _, _ => none
    actual_win_rate := ratioOrNull (wins.length * 100) recs.length }

/-- Modelled from the spec: staleness impact result (§4.7). -/
structure StalenessImpact where
  fresh : BucketStats
  stale : BucketStats
  win_rate_delta : Option ℚ
  deriving DecidableEq, Repr

/-- Modelled from the spec: staleness impact analyzer (§4.7) — partition the
filtered records by `noaa_stale`; `win_rate_delta = stale.win_rate -
fresh.win_rate`. -/
def stalenessImpact (recs : List SettlementRecord) : StalenessImpact :=
  let fresh := statsOf (recs.filter (fun r => !r.noaa_stale))
  let stale := statsOf (recs.filter (fun r => r.noaa_stale))
  { fresh := fresh
    stale := stale
    win_rate_delta :=
      match stale.win_rate, fresh.win_rate with
      | some s, some f => some (s - f)
      | _, _ => none }

/-- Modelled from the spec: dropout impact analyzer (§4.7) — group by the
integer `provider_count`; no `min_trades` suppression applies (the endpoint
takes only `days` and `city`). -/
def dropoutImpact (recs : List SettlementRecord) : List (ℤ × BucketStats) :=
  groupsBy (fun r => some r.provider_count) recs 0

/-- Modelled from the spec: bias analyzer result (§4.6). -/
structure BiasResult where
  bias : Option ℚ
  avg_predicted_edge : Option ℚ
  avg_actual_edge : Option ℚ
  color : Option String
  deriving DecidableEq, Repr

/-- Modelled from the spec: three-way bias color classification (§4.6):
`green` if `|bias| < 5`, `amber` if `|bias| < 15`, else `red`. -/
def biasColor (b : ℚ) : String :=
  if |b| < 5 then "green" else if |b| < 15 then "amber" else "red"

/-- Modelled from the spec: bias analyzer (§4.6) — `bias =
avg_predicted_edge - avg_actual_edge`, with the realized edge derived from
the win rate (`avg_actual_edge = actual_win_rate * 2 - 100`). -/
def biasAnalysis (recs : List SettlementRecord) : BiasResult :=
  let avgPred :=
    ratioOrNull ((recs.map (fun r => r.predicted_edge_cents)).sum) recs.length
  let avgActual :=
    (ratioOrNull ((recs.filter (fun r => r.won)).length * 100) recs.length).map
      (fun wr => wr * 2 - 100)
  let b :=
    match avgPred, avgActual with
    | some p, some a => some (p - a)
    | _, _ => none
  { bias := b
    avg_predicted_edge := avgPred
    avg_actual_edge := avgActual
    color := b.map biasColor }

/-- Modelled from the spec: one point of the edge calibration curve (§4.6)
over fixed-width buckets of `predicted_edge_cents`. -/
def edgeCalibration (recs : List SettlementRecord) (minTrades : ℕ) (bucketSize : ℤ) :
    List (String × BucketStats) :=
  groupsBy (fun r => some (edgeFixedLabel bucketSize r.predicted_edge_cents)) recs minTrades

/-- Modelled from the spec: confidence calibration curve buckets (§4.6) over
fixed-width buckets of `confidence`. -/
def confidenceCalibration (recs : List SettlementRecord) (minTrades : ℕ)
    (bucketSize : ℚ) : List (ℚ × BucketStats) :=
  groupsBy (fun r => some (fixedBucketLower bucketSize r.confidence)) recs minTrades

/-- Modelled from the spec: the settlement-log reader contract (§6) —
`read_settlements()` returns every record in the log, or an empty sequence
if the log is absent/unreadable (never raises for a missing file).  The
absent/unreadable log is embedded as `none`. -/
def readSettlements (log : Option (List SettlementRecord)) : List SettlementRecord :=
  match log with
  | some recs => recs
  | none => []

end KalshiAnalytics

namespace KalshiAnalytics

/-- Modelled from the spec: the streak detector's running state (§4.4) —
current run type (`win`/`loss`/none), current run length, longest win run
seen, longest loss run seen.  Outcomes are `Bool` (`true` = win). -/
structure StreakState where
  current_streak_type : Option Bool
  current_streak : ℕ
  longest_win_streak : ℕ
  longest_loss_streak : ℕ
  deriving DecidableEq, Repr

/-- Modelled from the spec: one step of the streak walk (§4.4): extend the
current run when the outcome matches its type, otherwise start a new run of
length 1; the longest run of the new run's type accounts for the (possibly
still open) run. -/
def streakStep (s : StreakState) (x : Bool) : StreakState :=
  let len := if s.current_streak_type = some x then s.current_streak + 1 else 1
  { current_streak_type := some x
    current_streak := len
    longest_win_streak := if x then max s.longest_win_streak len else s.longest_win_streak
    longest_loss_streak := if x then s.longest_loss_streak else max s.longest_loss_streak len }

/-- Modelled from the spec: the streak detector (§4.4) — a single linear
pass over the time-ordered (ascending) outcome sequence. -/
def computeStreaks (xs : List Bool) : StreakState :=
  xs.foldl streakStep ⟨none, 0, 0, 0⟩

/-- The length of the trailing run of outcome `b` in `xs` (declarative). -/
def tailRun (b : Bool) (xs : List Bool) : ℕ :=
  (xs.reverse.takeWhile (fun y => y == b)).length

/-- The greatest `n` such that `n` consecutive copies of `b` occur somewhere
in `xs` (declarative maximal run length). -/
def maxRun (b : Bool) (xs : List Bool) : ℕ :=
  Nat.findGreatest (fun n => List.replicate n b <:+: xs) xs.length

/-- The length of the final maximal same-outcome run of `xs` (declarative):
the trailing run of the last outcome, `0` for the empty sequence. -/
def currentRunLen (xs : List Bool) : ℕ :=
  match xs.getLast? with
  | none => 0
  | some b => tailRun b xs

end KalshiAnalytics

namespace KalshiAnalytics

namespace Frontend

/-- `WinRateData` from `ReliabilityPanel.tsx` — one row of a win-rate
table as delivered by the reliability summary endpoint. -/
structure WinRateData where
  wins : ℕ
  total : ℕ
  win_rate : ℚ
  deriving DecidableEq, Repr

/-- The ordering used by `renderWinRateTable` (`ReliabilityPanel.tsx` line
94): the comparator `(a, b) => b[1].win_rate - a[1].win_rate` orders by
descending `win_rate` only. -/
def descWinRate (a b : String × WinRateData) : Prop :=
  b.2.win_rate ≤ a.2.win_rate

instance : DecidableRel descWinRate :=
  fun a b => inferInstanceAs (Decidable (b.2.win_rate ≤ a.2.win_rate))

instance : IsTotal (String × WinRateData) descWinRate :=
  ⟨fun a b => le_total b.2.win_rate a.2.win_rate⟩

instance : IsTrans (String × WinRateData) descWinRate :=
  ⟨fun _ _ _ h1 h2 => le_trans h2 h1⟩

/-- The sort performed by `renderWinRateTable` (`ReliabilityPanel.tsx`
line 94): `Object.entries(dataObj).sort((a, b) => b[1].win_rate -
a[1].win_rate)`.  JavaScript `Array.prototype.sort` is stable, which the
stable `insertionSort` with the non-strict comparator embeds. -/
def sortWinRateEntries (l : List (String × WinRateData)) : List (String × WinRateData) :=
  List.insertionSort descWinRate l

/-- `CityPerformanceData` from the CityPerformance component — one row of
the `/pnl/by-city/` response. -/
structure CityPerformanceData where
  city : String
  trades : ℕ
  wins : ℕ
  losses : ℕ
  pnl_cents : ℤ
  deriving DecidableEq, Repr

/-- The win-rate sort key of `CityPerformance.sortedData` (lines 57-59):
`a.trades > 0 ? a.wins / a.trades : 0`. -/
def sortKeyWinRate (c : CityPerformanceData) : ℚ :=
  if c.trades > 0 then (c.wins : ℚ) / c.trades else 0

/-- The `win_rate` field attached by `CityPerformance.chartData` (line 84):
`city.trades > 0 ? city.wins / city.trades : 0`. -/
def chartWinRate (c : CityPerformanceData) : ℚ :=
  if c.trades > 0 then (c.wins : ℚ) / c.trades else 0

/-- `CityPerformance.chartData` (lines 81-86): each row carried over with
its computed `win_rate` field. -/
def chartData (data : List CityPerformanceData) : List (CityPerformanceData × ℚ) :=
  data.map (fun c => (c, chartWinRate c))

/-- The value the `CostPanel` break-even section displays as the "Actual
Win Rate" (`CostPanel` line 134): `total_trades > 0 ?
(avg_profit_cents / avg_cost_cents + 1) * breakeven_win_rate : 0`. -/
def displayedActualWinRate (avgProfit avgCost breakeven : ℚ) (totalTrades : ℕ) : ℚ :=
  if 0 < totalTrades then (avgProfit / avgCost + 1) * breakeven else 0

end Frontend

/-- Shorthand for building a settlement record in concrete test inputs. -/
def mkRec (city sd : String) (won : Bool) (pnl cost : ℤ) (edge cf : ℚ)
    (pc : ℤ) (stale : Bool) (fc : List (String × ℚ)) : SettlementRecord :=
  { timestamp := 0, city := city, side := sd, count := 1, price_cents := cost,
    cost_cents := cost, pnl_cents := pnl, won := won, predicted_edge_cents := edge,
    confidence := cf, actual_temp := none, forecast := none, provider_count := pc,
    noaa_stale := stale, individual_forecasts := fc }

/-- A small concrete settlement set exercising several groups. -/
def sampleRecs : List SettlementRecord :=
  [mkRec "PHX" "yes" true 60 40 12 (65/100) 5 false [("NOAA", 80)],
   mkRec "PHX" "yes" false (-40) 40 12 (65/100) 5 false [("NOAA", 78)],
   mkRec "SFO" "no" true 55 45 17 (75/100) 4 true [("GFS", 60)]]

/-- The spec's synthetic streak sequence `[W,W,L,W,W,W,L,L]` in ascending
time order (`true` = win). -/
def exampleOutcomes : List Bool :=
  [true, true, false, true, true, true, false, false]

/-- Concrete records with total cost 1000 cents and total pnl 100 cents. -/
def roiSample : List SettlementRecord :=
  [mkRec "PHX" "yes" true 70 600 12 (65/100) 5 false [],
   mkRec "SFO" "no" true 30 400 17 (75/100) 5 false []]

/-- Concrete records on which the CostPanel display formula disagrees with
the actual win rate: one win of 50 cents and one full loss of 30 cents,
both trades costing 100 cents. -/
def costBugSample : List SettlementRecord :=
  [mkRec "PHX" "yes" true 50 100 12 (65/100) 5 false [],
   mkRec "PHX" "yes" false (-30) 100 12 (65/100) 5 false []]

/-- Two by-city entries with equal `win_rate` where the earlier one has
fewer trades — input exhibiting the missing trades tie-break. -/
def cityTieExample : List (String × Frontend.WinRateData) :=
  [("A", ⟨1, 2, 50⟩), ("B", ⟨5, 10, 50⟩)]

/-- The ordering the spec claims for by-city detail output: descending
`win_rate` with ties broken by descending trade count. -/
def claimedCityOrder (l : List (String × Frontend.WinRateData)) : Prop :=
  l.Chain' (fun a b =>
    a.2.win_rate > b.2.win_rate ∨
      (a.2.win_rate = b.2.win_rate ∧ a.2.total ≥ b.2.total))

/-- The `CostPanel` "Actual Win Rate" display evaluated against the
engine's cost summary for the same records: the panel renders the section
only when the break-even figure is non-null, and reads the summary's
average profit and cost. -/
def costPanelActualWinRate (recs : List SettlementRecord) : Option ℚ :=
  let cs := costSummary recs 0
  match cs.break_even_win_rate, cs.avg_profit_cents, cs.avg_cost_cents with
  | some b, some p, some c => some (Frontend.displayedActualWinRate p c b recs.length)
  | _, _, _ => none

end KalshiAnalytics

namespace KalshiAnalytics

theorem tailRun_append (b x : Bool) (xs : List Bool) :
    tailRun b (xs ++ [x]) = if x == b then tailRun b xs + 1 else 0 := by
  simp only [tailRun, List.reverse_append, List.reverse_cons, List.reverse_nil,
    List.nil_append, List.singleton_append, List.takeWhile_cons]
  cases h : (x == b) <;> simp

theorem tailRun_eq_zero {b : Bool} {xs : List Bool} (h : xs.getLast? ≠ some b) :
    tailRun b xs = 0 := by
  cases hrev : xs.reverse with
  | nil => simp [tailRun, hrev]
  | cons y ys =>
    have hy : xs.getLast? = some y := by
      rw [← List.head?_reverse, hrev, List.head?_cons]
    have : y ≠ b := fun hyb => h (hyb ▸ hy)
    simp [tailRun, hrev, List.takeWhile_cons, this]

theorem replicate_prefix_iff (b : Bool) :
    ∀ (ys : List Bool) (n : ℕ),
      List.replicate n b <+: ys ↔ n ≤ (ys.takeWhile (fun y => y == b)).length := by
  intro ys
  induction ys with
  | nil =>
    intro n
    cases n <;> simp [List.replicate_succ]
  | cons y ys ih =>
    intro n
    cases n with
    | zero => simp
    | succ m =>
      rw [List.replicate_succ, List.cons_prefix_cons]
      by_cases hy : y = b
      · subst hy
        simp [List.takeWhile_cons, ih m, Nat.succ_le_succ_iff, eq_comm]
      · have hyb : (y == b) = false := by simpa using hy
        simp only [List.takeWhile_cons, hyb, Bool.false_eq_true, if_false,
          List.length_nil]
        exact iff_of_false (fun hc => hy hc.1.symm) (by omega)

theorem replicate_suffix_iff (b : Bool) (xs : List Bool) (n : ℕ) :
    List.replicate n b <:+ xs ↔ n ≤ tailRun b xs := by
  rw [← List.reverse_prefix, List.reverse_replicate, tailRun]
  exact replicate_prefix_iff b xs.reverse n

theorem infix_append_singleton_iff {α : Type} (l xs : List α) (x : α) :
    l <:+: xs ++ [x] ↔ l <:+: xs ∨ l <:+ xs ++ [x] := by
  constructor
  · rintro ⟨s, t, h⟩
    rcases t.eq_nil_or_concat with rfl | ⟨t', c, rfl⟩
    · right
      exact ⟨s, by simpa using h⟩
    · left
      have h' : (s ++ l ++ t') ++ [c] = xs ++ [x] := by
        simpa [List.append_assoc] using h
      obtain ⟨h1, _⟩ := List.append_inj' h' (by simp)
      exact ⟨s, t', by simpa [List.append_assoc] using h1⟩
  · rintro (h | ⟨s, h⟩)
    · exact h.trans (List.IsPrefix.isInfix (xs.prefix_append [x]))
    · exact ⟨s, [], by simpa using h⟩

theorem maxRun_spec (b : Bool) (xs : List Bool) :
    List.replicate (maxRun b xs) b <:+: xs := by
  have h0 : List.replicate 0 b <:+: xs := by
    rw [List.replicate_zero]
    exact List.nil_infix
  exact Nat.findGreatest_spec (P := fun n => List.replicate n b <:+: xs)
    (Nat.zero_le xs.length) h0

theorem le_maxRun {b : Bool} {xs : List Bool} {m : ℕ}
    (h : List.replicate m b <:+: xs) : m ≤ maxRun b xs :=
  Nat.le_findGreatest (by simpa using h.length_le) h

theorem maxRun_eq_of {b : Bool} {xs : List Bool} {n : ℕ}
    (h1 : List.replicate n b <:+: xs)
    (h2 : ∀ m, List.replicate m b <:+: xs → m ≤ n) : maxRun b xs = n :=
  le_antisymm (h2 _ (maxRun_spec b xs)) (le_maxRun h1)

theorem maxRun_append_ne {b x : Bool} (hxb : x ≠ b) (xs : List Bool) :
    maxRun b (xs ++ [x]) = maxRun b xs := by
  apply maxRun_eq_of
  · exact (maxRun_spec b xs).trans (List.IsPrefix.isInfix (xs.prefix_append [x]))
  · intro m hm
    rcases (infix_append_singleton_iff _ xs x).mp hm with h | h
    · exact le_maxRun h
    · rw [replicate_suffix_iff, tailRun_append] at h
      have hf : (x == b) = false := by simpa using hxb
      rw [hf] at h
      simp only [Bool.false_eq_true, if_false, Nat.le_zero] at h
      simp [h]

theorem maxRun_append_eq (b : Bool) (xs : List Bool) :
    maxRun b (xs ++ [b]) = max (maxRun b xs) (tailRun b xs + 1) := by
  apply maxRun_eq_of
  · rcases le_total (tailRun b xs + 1) (maxRun b xs) with h | h
    · rw [max_eq_left h]
      exact (maxRun_spec b xs).trans (List.IsPrefix.isInfix (xs.prefix_append [b]))
    · rw [max_eq_right h]
      apply List.IsSuffix.isInfix
      rw [replicate_suffix_iff, tailRun_append]
      simp
  · intro m hm
    rcases (infix_append_singleton_iff _ xs b).mp hm with h | h
    · exact le_trans (le_maxRun h) (le_max_left _ _)
    · rw [replicate_suffix_iff, tailRun_append] at h
      rw [if_pos (by simp : (b == b) = true)] at h
      exact le_trans h (le_max_right _ _)

theorem currentRunLen_append (xs : List Bool) (x : Bool) :
    currentRunLen (xs ++ [x]) = tailRun x xs + 1 := by
  have hg : (xs ++ [x]).getLast? = some x := by simp
  simp only [currentRunLen, hg]
  rw [tailRun_append]
  simp

theorem computeStreaks_eq (xs : List Bool) :
    computeStreaks xs =
      ⟨xs.getLast?, currentRunLen xs, maxRun true xs, maxRun false xs⟩ := by
  induction xs using List.reverseRecOn with
  | nil => simp [computeStreaks, maxRun, currentRunLen]
  | append_singleton xs x ih =>
    have hfold : computeStreaks (xs ++ [x]) = streakStep (computeStreaks xs) x := by
      simp [computeStreaks, List.foldl_append]
    rw [hfold, ih]
    have hlen :
        (if xs.getLast? = some x then currentRunLen xs + 1 else 1) = tailRun x xs + 1 := by
      by_cases h : xs.getLast? = some x
      · rw [if_pos h]
        simp only [currentRunLen, h]
      · rw [if_neg h, tailRun_eq_zero h]
    have hg : (xs ++ [x]).getLast? = some x := by simp
    cases x with
    | true =>
      simp only [streakStep, StreakState.mk.injEq]
      refine ⟨hg.symm, by rw [hlen, currentRunLen_append], ?_, ?_⟩
      · rw [hlen, maxRun_append_eq]
        simp
      · rw [maxRun_append_ne (by simp) xs]
        simp
    | false =>
      simp only [streakStep, StreakState.mk.injEq]
      refine ⟨hg.symm, by rw [hlen, currentRunLen_append], ?_, ?_⟩
      · rw [maxRun_append_ne (by simp) xs]
        simp
      · rw [hlen, maxRun_append_eq]
        simp

end KalshiAnalytics

namespace KalshiAnalytics

theorem mem_suppress_le {β : Type} (tr : β → ℕ) (m : ℕ) (l : List β) (g : β)
    (hg : g ∈ suppress tr m l) : m ≤ tr g := by
  rw [suppress, List.mem_filter] at hg
  exact of_decide_eq_true hg.2

theorem mem_suppress_antitone {β : Type} (tr : β → ℕ) {m1 m2 : ℕ} (h : m1 ≤ m2)
    (l : List β) (g : β) (hg : g ∈ suppress tr m2 l) : g ∈ suppress tr m1 l := by
  rw [suppress, List.mem_filter] at hg ⊢
  exact ⟨hg.1, decide_eq_true (le_trans h (of_decide_eq_true hg.2))⟩

theorem sum_map_ite_eq_zero {K : Type} [DecidableEq K] (x : K) :
    ∀ ks : List K, x ∉ ks → (ks.map (fun k => if k = x then 1 else 0)).sum = 0 := by
  intro ks
  induction ks with
  | nil => intro _; rfl
  | cons k ks ih =>
    intro hx
    have hk : ¬k = x := fun hkx => hx (hkx ▸ List.mem_cons_self k ks)
    simp only [List.map_cons, List.sum_cons, hk, if_false, ih (fun hm => hx (List.mem_cons_of_mem k hm))]

theorem sum_map_ite_eq_one {K : Type} [DecidableEq K] (x : K) :
    ∀ ks : List K, ks.Nodup → x ∈ ks → (ks.map (fun k => if k = x then 1 else 0)).sum = 1 := by
  intro ks
  induction ks with
  | nil => intro _ h; cases h
  | cons k ks ih =>
    intro hnd hx
    rcases List.mem_cons.mp hx with rfl | hx'
    · simp only [List.map_cons, List.sum_cons, if_pos rfl]
      rw [sum_map_ite_eq_zero x ks (List.nodup_cons.mp hnd).1]
      simp
    · have hk : ¬k = x := fun hkx => (List.nodup_cons.mp hnd).1 (hkx ▸ hx')
      simp only [List.map_cons, List.sum_cons, hk, if_false,
        ih (List.nodup_cons.mp hnd).2 hx']

theorem sum_map_add_distrib {K : Type} (f g : K → ℕ) :
    ∀ ks : List K, (ks.map (fun k => f k + g k)).sum = (ks.map f).sum + (ks.map g).sum := by
  intro ks
  induction ks with
  | nil => rfl
  | cons k ks ih => simp only [List.map_cons, List.sum_cons, ih]; omega

theorem sum_counts_eq_length {K : Type} [DecidableEq K] (ks : List K)
    (hnd : ks.Nodup) :
    ∀ l : List K, (∀ x ∈ l, x ∈ ks) → (ks.map (fun k => l.count k)).sum = l.length := by
  intro l
  induction l with
  | nil => intro _; simp
  | cons x l ih =>
    intro hcov
    have hx : x ∈ ks := hcov x (List.mem_cons_self x l)
    have hcount : (fun k => (x :: l).count k) = fun k => l.count k + if k = x then 1 else 0 := by
      funext k
      rw [List.count_cons]
      by_cases h : k = x
      · simp [h]
      · have hne : (x == k) = false := by simpa using fun hxk : x = k => h hxk.symm
        simp [h, hne]
    rw [hcount, sum_map_add_distrib, ih (fun y hy => hcov y (List.mem_cons_of_mem x hy)),
      sum_map_ite_eq_one x ks hnd hx, List.length_cons]

theorem filter_length_eq_count {R K : Type} [DecidableEq K] (f : R → K) (k : K) :
    ∀ recs : List R,
      (recs.filter (fun r => decide (f r = k))).length = (recs.map f).count k := by
  intro recs
  induction recs with
  | nil => rfl
  | cons r l ih =>
    by_cases h : f r = k
    · simp [h, ih, List.count_cons]
    · simp [h, ih, List.count_cons, fun hk : k = f r => h hk.symm]

theorem sum_filter_lengths {R K : Type} [DecidableEq K] (f : R → K) (recs : List R) :
    (((recs.map f).dedup).map
      (fun k => (recs.filter (fun r => decide (f r = k))).length)).sum = recs.length := by
  have hmap : ((recs.map f).dedup).map
      (fun k => (recs.filter (fun r => decide (f r = k))).length) =
      ((recs.map f).dedup).map (fun k => (recs.map f).count k) := by
    apply List.map_congr_left
    intro k _
    exact filter_length_eq_count f k recs
  rw [hmap, sum_counts_eq_length _ (recs.map f).nodup_dedup _
    (fun x hx => List.mem_dedup.mpr hx), List.length_map]

end KalshiAnalytics

namespace KalshiAnalytics

/-- C1: for every grouping dimension of every analytic, no group with
`trades < min_trades` appears in the detail output, ungrouped cost summary
totals are never suppressed, and raising `min_trades` from `m1` to `m2`
only removes groups (the `m2` output is a subset of the `m1` output). -/
theorem min_trades_suppression (recs : List SettlementRecord) (m1 m2 : ℕ) (h : m1 ≤ m2) :
    (∀ g ∈ byCity recs m2, m2 ≤ g.2.trades ∧ g ∈ byCity recs m1) ∧
    (∀ g ∈ bySide recs m2, m2 ≤ g.2.trades ∧ g ∈ bySide recs m1) ∧
    (∀ g ∈ byConfidence recs m2, m2 ≤ g.2.trades ∧ g ∈ byConfidence recs m1) ∧
    (∀ g ∈ byEdge recs m2, m2 ≤ g.2.trades ∧ g ∈ byEdge recs m1) ∧
    (∀ g ∈ costByEdgeBucket recs m2, m2 ≤ g.2.count ∧ g ∈ costByEdgeBucket recs m1) ∧
    (∀ g ∈ providersAccuracy recs m2, m2 ≤ g.2.trades ∧ g ∈ providersAccuracy recs m1) ∧
    (costSummary recs m2).total_cost_cents = (costSummary recs 0).total_cost_cents ∧
    (costSummary recs m2).total_profit_cents = (costSummary recs 0).total_profit_cents ∧
    (costSummary recs m2).roi = (costSummary recs 0).roi ∧
    (costSummary recs m2).avg_cost_cents = (costSummary recs 0).avg_cost_cents ∧
    (costSummary recs m2).avg_profit_cents = (costSummary recs 0).avg_profit_cents ∧
    (costSummary recs m2).actual_win_rate = (costSummary recs 0).actual_win_rate := by
  refine ⟨?_, ?_, ?_, ?_, ?_, ?_, rfl, rfl, rfl, rfl, rfl, rfl⟩ <;>
    exact fun g hg => ⟨mem_suppress_le _ _ _ g hg, mem_suppress_antitone _ h _ g hg⟩

/-- C1 witness: the suppression and monotonicity facts instantiated on a
concrete settlement set with `min_trades` raised from 1 to 2. -/
theorem min_trades_suppression_witness :
    (1 : ℕ) ≤ 2 ∧
    ((∀ g ∈ byCity sampleRecs 2, 2 ≤ g.2.trades ∧ g ∈ byCity sampleRecs 1) ∧
     (∀ g ∈ bySide sampleRecs 2, 2 ≤ g.2.trades ∧ g ∈ bySide sampleRecs 1) ∧
     (∀ g ∈ byConfidence sampleRecs 2, 2 ≤ g.2.trades ∧ g ∈ byConfidence sampleRecs 1) ∧
     (∀ g ∈ byEdge sampleRecs 2, 2 ≤ g.2.trades ∧ g ∈ byEdge sampleRecs 1) ∧
     (∀ g ∈ costByEdgeBucket sampleRecs 2, 2 ≤ g.2.count ∧ g ∈ costByEdgeBucket sampleRecs 1) ∧
     (∀ g ∈ providersAccuracy sampleRecs 2, 2 ≤ g.2.trades ∧ g ∈ providersAccuracy sampleRecs 1) ∧
     (costSummary sampleRecs 2).total_cost_cents = (costSummary sampleRecs 0).total_cost_cents ∧
     (costSummary sampleRecs 2).total_profit_cents = (costSummary sampleRecs 0).total_profit_cents ∧
     (costSummary sampleRecs 2).roi = (costSummary sampleRecs 0).roi ∧
     (costSummary sampleRecs 2).avg_cost_cents = (costSummary sampleRecs 0).avg_cost_cents ∧
     (costSummary sampleRecs 2).avg_profit_cents = (costSummary sampleRecs 0).avg_profit_cents ∧
     (costSummary sampleRecs 2).actual_win_rate = (costSummary sampleRecs 0).actual_win_rate) :=
  ⟨by decide, min_trades_suppression sampleRecs 1 2 (by decide)⟩

/-- C2: on a time-ordered outcome sequence ending in outcome `b`, the
streak detector reports the length of the final maximal run as
`current_streak`, `b` as `current_streak_type`, and the maximal run lengths
of each outcome as the longest streaks; on `[W,W,L,W,W,W,L,L]` it reports
(2, loss, 3, 2) and on the empty sequence (0, null, 0, 0). -/
theorem streak_detector_correct (xs : List Bool) (b : Bool)
    (h : xs.getLast? = some b) :
    (computeStreaks xs).current_streak = tailRun b xs ∧
    (computeStreaks xs).current_streak_type = some b ∧
    (computeStreaks xs).longest_win_streak = maxRun true xs ∧
    (computeStreaks xs).longest_loss_streak = maxRun false xs ∧
    computeStreaks exampleOutcomes = ⟨some false, 2, 3, 2⟩ ∧
    computeStreaks [] = ⟨none, 0, 0, 0⟩ := by
  rw [computeStreaks_eq]
  refine ⟨?_, h, rfl, rfl, by decide, by decide⟩
  simp [currentRunLen, h]

/-- C2 witness: the streak characterization instantiated on the spec's
synthetic sequence `[W,W,L,W,W,W,L,L]`. -/
theorem streak_detector_correct_witness :
    exampleOutcomes.getLast? = some false ∧
    ((computeStreaks exampleOutcomes).current_streak = tailRun false exampleOutcomes ∧
     (computeStreaks exampleOutcomes).current_streak_type = some false ∧
     (computeStreaks exampleOutcomes).longest_win_streak = maxRun true exampleOutcomes ∧
     (computeStreaks exampleOutcomes).longest_loss_streak = maxRun false exampleOutcomes ∧
     computeStreaks exampleOutcomes = ⟨some false, 2, 3, 2⟩ ∧
     computeStreaks [] = ⟨none, 0, 0, 0⟩) :=
  ⟨by decide, streak_detector_correct exampleOutcomes false (by decide)⟩

theorem findRange_sound (ranges : List (String × ℚ × Option ℚ)) (v : ℚ)
    (lbl : String) (h : findRange ranges v = some lbl) :
    ∃ rg ∈ ranges, rg.1 = lbl ∧ rg.2.1 ≤ v ∧ ∀ hi, rg.2.2 = some hi → v < hi := by
  rw [findRange, Option.map_eq_some'] at h
  obtain ⟨rg, hfind, hlbl⟩ := h
  have hmem := List.mem_of_find?_eq_some hfind
  have hp := List.find?_some hfind
  refine ⟨rg, hmem, hlbl, ?_, ?_⟩
  · rcases Bool.and_eq_true_iff.mp hp with ⟨h1, -⟩
    exact of_decide_eq_true h1
  · intro hi hhi
    rcases Bool.and_eq_true_iff.mp hp with ⟨-, h2⟩
    rw [hhi] at h2
    exact of_decide_eq_true h2

/-- C3: both bucketing primitives are half-open, closed on the lower side:
the fixed-width bucket containing `v` satisfies `lower <= v < lower +
bucket_size`, a boundary value is its own bucket's lower bound, the
named-range bucket assigned to `v` satisfies `lower <= v < upper`, and
`predicted_edge_cents = 15.0` under fixed-width size 5 labels `15-20`. -/
theorem bucket_boundary_half_open (bucketSize v : ℚ) (h : 0 < bucketSize) :
    fixedBucketLower bucketSize v ≤ v ∧
    v < fixedBucketLower bucketSize v + bucketSize ∧
    (∀ k : ℤ, fixedBucketLower bucketSize (k * bucketSize) = k * bucketSize) ∧
    (∀ lbl, findRange edgeRanges v = some lbl →
      ∃ rg ∈ edgeRanges, rg.1 = lbl ∧ rg.2.1 ≤ v ∧
        ∀ hi, rg.2.2 = some hi → v < hi) ∧
    edgeFixedLabel 5 15 = "15-20" ∧
    findRange edgeRanges 15 = some "15-25" ∧
    findRange edgeRanges 25 = some "25-40" ∧
    findRange edgeRanges 40 = some "40-100" ∧
    findRange confidenceRanges (7/10) = some "0.7-0.8" := by
  have hne : bucketSize ≠ 0 := ne_of_gt h
  refine ⟨?_, ?_, ?_, fun lbl hl => findRange_sound edgeRanges v lbl hl,
    by norm_num [edgeFixedLabel]; rfl, by decide, by decide, by decide,
    by norm_num [findRange, confidenceRanges, List.find?]⟩
  · rw [fixedBucketLower]
    exact (le_div_iff₀ h).mp (Int.floor_le (v / bucketSize))
  · have h3 : v < ((⌊v / bucketSize⌋ : ℚ) + 1) * bucketSize :=
      (div_lt_iff₀ h).mp (Int.lt_floor_add_one (v / bucketSize))
    rw [fixedBucketLower]
    nlinarith [h3]
  · intro k
    rw [fixedBucketLower, mul_div_cancel_right₀ (k : ℚ) hne, Int.floor_intCast]

/-- C3 witness: the half-open bucket facts instantiated at bucket size 5
and boundary value 15. -/
theorem bucket_boundary_half_open_witness :
    (0 : ℚ) < 5 ∧
    (fixedBucketLower 5 15 ≤ 15 ∧
     (15 : ℚ) < fixedBucketLower 5 15 + 5 ∧
     (∀ k : ℤ, fixedBucketLower 5 (k * 5) = k * 5) ∧
     (∀ lbl, findRange edgeRanges 15 = some lbl →
       ∃ rg ∈ edgeRanges, rg.1 = lbl ∧ rg.2.1 ≤ 15 ∧
         ∀ hi, rg.2.2 = some hi → (15 : ℚ) < hi) ∧
     edgeFixedLabel 5 15 = "15-20" ∧
     findRange edgeRanges 15 = some "15-25" ∧
     findRange edgeRanges 25 = some "25-40" ∧
     findRange edgeRanges 40 = some "40-100" ∧
     findRange confidenceRanges (7/10) = some "0.7-0.8") :=
  ⟨by norm_num, bucket_boundary_half_open 5 15 (by norm_num)⟩

end KalshiAnalytics

namespace KalshiAnalytics

/-- C4: the bias analytic reports `bias = avg_predicted_edge -
avg_actual_edge` and classifies `green` exactly when `|bias| < 5`, `amber`
exactly when `5 <= |bias| < 15`, `red` exactly when `|bias| >= 15`; in
particular 4.99 is green, 5.0 amber, 14.99 amber and 15.0 red. -/
theorem bias_classification (recs : List SettlementRecord) (b : ℚ)
    (h : (biasAnalysis recs).bias = some b) :
    (biasAnalysis recs).color = some (biasColor b) ∧
    (∀ p a, (biasAnalysis recs).avg_predicted_edge = some p →
      (biasAnalysis recs).avg_actual_edge = some a → b = p - a) ∧
    (biasColor b = "green" ↔ |b| < 5) ∧
    (biasColor b = "amber" ↔ 5 ≤ |b| ∧ |b| < 15) ∧
    (biasColor b = "red" ↔ 15 ≤ |b|) ∧
    biasColor (499/100) = "green" ∧ biasColor 5 = "amber" ∧
    biasColor (1499/100) = "amber" ∧ biasColor 15 = "red" := by
  have hcolor : (biasAnalysis recs).color = (biasAnalysis recs).bias.map biasColor := rfl
  refine ⟨by rw [hcolor, h]; rfl, ?_, ?_, ?_, ?_, ?_, ?_, ?_, ?_⟩
  · intro p a hp ha
    have hb : (biasAnalysis recs).bias = some (p - a) := by
      simp only [biasAnalysis] at hp ha ⊢
      rw [hp, ha]
    rw [h] at hb
    exact Option.some_injective _ hb
  · rw [biasColor]
    split_ifs with h1 h2
    · exact iff_of_true rfl h1
    · exact iff_of_false (by decide) h1
    · exact iff_of_false (by decide) h1
  · rw [biasColor]
    split_ifs with h1 h2
    · exact iff_of_false (by decide) (fun hc => absurd h1 (not_lt.mpr hc.1))
    · exact iff_of_true rfl ⟨not_lt.mp h1, h2⟩
    · exact iff_of_false (by decide) (fun hc => h2 hc.2)
  · rw [biasColor]
    split_ifs with h1 h2
    · exact iff_of_false (by decide) (fun hc => by linarith)
    · exact iff_of_false (by decide) (fun hc => by linarith)
    · exact iff_of_true rfl (not_lt.mp h2)
  · rw [biasColor, if_pos (by rw [abs_of_pos] <;> norm_num)]
  · rw [biasColor, if_neg (by rw [abs_of_pos] <;> norm_num),
      if_pos (by rw [abs_of_pos] <;> norm_num)]
  · rw [biasColor, if_neg (by rw [abs_of_pos] <;> norm_num),
      if_pos (by rw [abs_of_pos] <;> norm_num)]
  · rw [biasColor, if_neg (by rw [abs_of_pos] <;> norm_num),
      if_neg (by rw [abs_of_pos] <;> norm_num)]

/-- C4 witness: the bias contract instantiated on a concrete settlement
set whose bias is `-59/3`. -/
theorem bias_classification_witness :
    (biasAnalysis sampleRecs).bias = some (-59/3) ∧
    ((biasAnalysis sampleRecs).color = some (biasColor (-59/3)) ∧
     (∀ p a, (biasAnalysis sampleRecs).avg_predicted_edge = some p →
       (biasAnalysis sampleRecs).avg_actual_edge = some a → (-59/3 : ℚ) = p - a) ∧
     (biasColor (-59/3) = "green" ↔ |(-59/3 : ℚ)| < 5) ∧
     (biasColor (-59/3) = "amber" ↔ 5 ≤ |(-59/3 : ℚ)| ∧ |(-59/3 : ℚ)| < 15) ∧
     (biasColor (-59/3) = "red" ↔ 15 ≤ |(-59/3 : ℚ)|) ∧
     biasColor (499/100) = "green" ∧ biasColor 5 = "amber" ∧
     biasColor (1499/100) = "amber" ∧ biasColor 15 = "red") :=
  ⟨by norm_num [biasAnalysis, ratioOrNull, sampleRecs, mkRec, statsOf],
   bias_classification sampleRecs (-59/3)
     (by norm_num [biasAnalysis, ratioOrNull, sampleRecs, mkRec, statsOf])⟩

/-- C5: the cost summary's ROI is `total_profit / total_cost * 100` when
the total cost is non-zero, and the fixed `null` convention value when the
total cost is zero, the same convention every engine ratio uses; records
with total cost 1000 and total pnl 100 yield ROI exactly 10. -/
theorem roi_contract (recs : List SettlementRecord)
    (h : (recs.map (fun r => r.cost_cents)).sum ≠ 0) :
    (costSummary recs 0).roi =
      some (((((recs.map (fun r => r.pnl_cents)).sum : ℤ) : ℚ) /
        (((recs.map (fun r => r.cost_cents)).sum : ℤ) : ℚ)) * 100) ∧
    (∀ rs : List SettlementRecord, (rs.map (fun r => r.cost_cents)).sum = 0 →
      (costSummary rs 0).roi = none) ∧
    (∀ num : ℚ, ratioOrNull num 0 = none) ∧
    (statsOf []).win_rate = none ∧
    (costSummary [] 0).break_even_win_rate = none ∧
    (costSummary [] 0).avg_cost_cents = none ∧
    (stalenessImpact []).win_rate_delta = none ∧
    (costSummary roiSample 0).roi = some 10 := by
  have hq : (((recs.map (fun r => r.cost_cents)).sum : ℤ) : ℚ) ≠ 0 :=
    Int.cast_ne_zero.mpr h
  refine ⟨?_, ?_, fun num => if_pos rfl, rfl, rfl, rfl, rfl, ?_⟩
  · show ratioOrNull _ _ = _
    rw [ratioOrNull, if_neg hq, mul_div_right_comm]
  · intro rs hrs
    show ratioOrNull _ _ = _
    rw [ratioOrNull, if_pos (by exact_mod_cast hrs)]
  · norm_num [costSummary, roiSample, mkRec, ratioOrNull]

/-- C5 witness: the ROI contract instantiated on the concrete records with
total cost 1000 cents and total pnl 100 cents. -/
theorem roi_contract_witness :
    (roiSample.map (fun r => r.cost_cents)).sum ≠ 0 ∧
    ((costSummary roiSample 0).roi =
       some (((((roiSample.map (fun r => r.pnl_cents)).sum : ℤ) : ℚ) /
         (((roiSample.map (fun r => r.cost_cents)).sum : ℤ) : ℚ)) * 100) ∧
     (∀ rs : List SettlementRecord, (rs.map (fun r => r.cost_cents)).sum = 0 →
       (costSummary rs 0).roi = none) ∧
     (∀ num : ℚ, ratioOrNull num 0 = none) ∧
     (statsOf []).win_rate = none ∧
     (costSummary [] 0).break_even_win_rate = none ∧
     (costSummary [] 0).avg_cost_cents = none ∧
     (stalenessImpact []).win_rate_delta = none ∧
     (costSummary roiSample 0).roi = some 10) :=
  ⟨by decide, roi_contract roiSample (by decide)⟩

/-- C6: a missing or unreadable settlement log surfaces as the empty
sequence, and on the empty sequence every analytic returns its well-defined
zero/no-data value rather than failing. -/
theorem empty_input_no_data :
    readSettlements none = [] ∧
    (∀ recs : List SettlementRecord, readSettlements (some recs) = recs) ∧
    (∀ m, byCity [] m = [] ∧ bySide [] m = [] ∧ byConfidence [] m = [] ∧
      byEdge [] m = [] ∧ costByEdgeBucket [] m = [] ∧ providersAccuracy [] m = [] ∧
      edgeCalibration [] m 5 = [] ∧ confidenceCalibration [] m (1/20) = []) ∧
    dropoutImpact [] = [] ∧
    computeStreaks [] = ⟨none, 0, 0, 0⟩ ∧
    statsOf [] = ⟨0, 0, 0, none⟩ ∧
    stalenessImpact [] = ⟨⟨0, 0, 0, none⟩, ⟨0, 0, 0, none⟩, none⟩ ∧
    (∀ m, costSummary [] m = ⟨none, none, 0, 0, none, none, none⟩) ∧
    biasAnalysis [] = ⟨none, none, none, none⟩ := by
  refine ⟨rfl, fun recs => rfl, fun m => ⟨rfl, rfl, rfl, rfl, rfl, rfl, rfl, rfl⟩,
    rfl, rfl, rfl, rfl, fun m => ?_, rfl⟩
  cases m with
  | zero => rfl
  | succ n => simp [costSummary, ratioOrNull]

theorem length_filter_not_add (p : SettlementRecord → Bool) (recs : List SettlementRecord) :
    (recs.filter (fun r => !p r)).length + (recs.filter p).length = recs.length := by
  induction recs with
  | nil => rfl
  | cons r l ih =>
    by_cases hr : p r <;> simp [List.filter_cons, hr] <;> omega

theorem filterMap_some_eq_map {R K : Type} (f : R → K) :
    ∀ l : List R, l.filterMap (fun r => some (f r)) = l.map f := by
  intro l
  induction l with
  | nil => rfl
  | cons r l ih => simp [List.filterMap_cons, ih]

/-- C7: the staleness analytic partitions the filtered records (fresh and
stale trades sum to the total and the reported delta is `stale.win_rate -
fresh.win_rate`), and the dropout analytic's per-provider-count groups also
sum to the total. -/
theorem partition_completeness (recs : List SettlementRecord) :
    (stalenessImpact recs).fresh.trades + (stalenessImpact recs).stale.trades =
      recs.length ∧
    ((dropoutImpact recs).map (fun g => g.2.trades)).sum = recs.length ∧
    (∀ s f, (stalenessImpact recs).stale.win_rate = some s →
      (stalenessImpact recs).fresh.win_rate = some f →
      (stalenessImpact recs).win_rate_delta = some (s - f)) := by
  refine ⟨length_filter_not_add (fun r => r.noaa_stale) recs, ?_, ?_⟩
  · have hmap : (dropoutImpact recs).map (fun g => g.2.trades) =
        ((recs.map (fun r => r.provider_count)).dedup).map
          (fun k => (recs.filter (fun r => decide (r.provider_count = k))).length) := by
      rw [dropoutImpact, groupsBy, suppress,
        List.filter_eq_self.mpr (fun g _ => decide_eq_true (Nat.zero_le _)),
        groupsBase, filterMap_some_eq_map, List.map_map]
      apply List.map_congr_left
      intro k _
      show (recs.filter (fun r => decide (some r.provider_count = some k))).length =
        (recs.filter (fun r => decide (r.provider_count = k))).length
      apply congrArg List.length
      apply List.filter_congr
      intro r _
      simp
    rw [hmap, sum_filter_lengths]
  · intro s f hs hf
    simp only [stalenessImpact] at hs hf ⊢
    rw [hs, hf]

end KalshiAnalytics

namespace KalshiAnalytics

/-- C8 counterexample: two by-city entries with equal `win_rate`, the
earlier one having fewer trades, pass through the by-city sort unchanged —
the output violates the claimed descending-trades tie-break. -/
theorem by_city_sort_tie_counterexample :
    ¬ claimedCityOrder (Frontend.sortWinRateEntries cityTieExample) := by
  intro h
  have hsort : Frontend.sortWinRateEntries cityTieExample = cityTieExample := by decide
  rw [hsort, claimedCityOrder, cityTieExample] at h
  rcases List.chain'_cons.mp h with ⟨hpair, -⟩
  rcases hpair with hlt | ⟨-, hge⟩
  · exact absurd hlt (by decide)
  · exact absurd hge (by decide)

/-- C8 amended: the by-city detail sort orders entries by descending
`win_rate` only — every adjacent pair is non-increasing in `win_rate` and
the output is a permutation of the input; entries with equal `win_rate`
carry no trades tie-break. -/
theorem by_city_sort_descending (l : List (String × Frontend.WinRateData)) :
    (Frontend.sortWinRateEntries l).Chain'
      (fun a b => b.2.win_rate ≤ a.2.win_rate) ∧
    (Frontend.sortWinRateEntries l).Perm l :=
  ⟨List.Pairwise.chain' (List.sorted_insertionSort Frontend.descWinRate l),
   List.perm_insertionSort Frontend.descWinRate l⟩

/-- C9: on the concrete records of `costBugSample` (one 50-cent win, one
30-cent loss, each trade costing 100 cents) the CostPanel formula
`(avg_profit_cents / avg_cost_cents + 1) * breakeven_win_rate` displays
41.25 as the "Actual Win Rate", while the actual win rate of those records
is 50. -/
theorem cost_panel_actual_win_rate_mismatch :
    costPanelActualWinRate costBugSample = some (165/4) ∧
    (costSummary costBugSample 0).actual_win_rate = some 50 ∧
    (165/4 : ℚ) ≠ 50 := by
  refine ⟨?_, ?_, by norm_num⟩
  · norm_num [costPanelActualWinRate, costSummary, costBugSample, mkRec,
      ratioOrNull, Frontend.displayedActualWinRate]
  · norm_num [costSummary, costBugSample, mkRec, ratioOrNull]

/-- C10: every `win_rate` value the CityPerformance chart attaches to a
row is the guarded division — zero when the row has zero trades, and
`wins / trades` (a genuine division, recoverable by multiplying back)
otherwise — and the sort key for the `win_rate` column is computed the
same way. -/
theorem city_win_rate_guarded (data : List Frontend.CityPerformanceData)
    (c : Frontend.CityPerformanceData) (wr : ℚ)
    (h : (c, wr) ∈ Frontend.chartData data) :
    (c.trades = 0 → wr = 0) ∧
    (c.trades ≠ 0 → wr * c.trades = c.wins) ∧
    wr = Frontend.chartWinRate c ∧
    Frontend.sortKeyWinRate c = Frontend.chartWinRate c := by
  have hwr : wr = Frontend.chartWinRate c := by
    rw [Frontend.chartData] at h
    obtain ⟨a, -, heq⟩ := List.mem_map.mp h
    obtain ⟨rfl, hw⟩ := Prod.mk.injEq .. ▸ heq
    exact hw.symm
  refine ⟨?_, ?_, hwr, rfl⟩
  · intro h0
    rw [hwr, Frontend.chartWinRate, h0]
    simp
  · intro h0
    rw [hwr, Frontend.chartWinRate, if_pos (Nat.pos_of_ne_zero h0)]
    exact div_mul_cancel₀ _ (Nat.cast_ne_zero.mpr h0)

/-- C10 witness: the guarded win rate instantiated on a single city row
with zero trades. -/
theorem city_win_rate_guarded_witness :
    ((⟨"PHX", 0, 0, 0, 0⟩, (0 : ℚ)) ∈
      Frontend.chartData [⟨"PHX", 0, 0, 0, 0⟩]) ∧
    (((⟨"PHX", 0, 0, 0, 0⟩ : Frontend.CityPerformanceData).trades = 0 → (0 : ℚ) = 0) ∧
     ((⟨"PHX", 0, 0, 0, 0⟩ : Frontend.CityPerformanceData).trades ≠ 0 →
       (0 : ℚ) * (⟨"PHX", 0, 0, 0, 0⟩ : Frontend.CityPerformanceData).trades =
         (⟨"PHX", 0, 0, 0, 0⟩ : Frontend.CityPerformanceData).wins) ∧
     (0 : ℚ) = Frontend.chartWinRate ⟨"PHX", 0, 0, 0, 0⟩ ∧
     Frontend.sortKeyWinRate ⟨"PHX", 0, 0, 0, 0⟩ =
       Frontend.chartWinRate ⟨"PHX", 0, 0, 0, 0⟩) :=
  ⟨by decide, city_win_rate_guarded [⟨"PHX", 0, 0, 0, 0⟩] ⟨"PHX", 0, 0, 0, 0⟩ 0 (by decide)⟩

end KalshiAnalytics
